import Mathlib

/-!
# Verification of the term-replacement engine of `speech_recognition.py`

This development shallowly embeds the two functions of the repository that
the specification's claims are about:

* `AudioTranscriber.load_term_replacements` (speech_recognition.py, lines
  415-471): scanning a directory of JSON dictionary files and folding their
  rules into a single pattern-to-correction mapping, with per-file error
  isolation;

* `AudioTranscriber.postprocess_text` (speech_recognition.py, lines
  473-497): applying the mapping to a text, classifying each pattern as
  regex-bearing or literal, substituting case-insensitively with word
  boundaries, and falling back to a literal substitution when a
  regex-bearing pattern does not compile.

Python dictionaries are modelled as insertion-ordered association lists
with last-writer-wins update (`dictInsert`).  The calls into Python's `re`
library are modelled by executable Lean functions: `parseTemplate` models
`sre_parse.parse_template` (the replacement-template compiler, whose
errors - bad escapes and out-of-range group references - are raised
eagerly by `re.sub`), `compilePattern` models `re.compile` for the
regular-expression syntax fragment relevant to this repository (literals,
escapes, character classes, groups, alternation, greedy quantifiers,
anchors and word boundaries; extension groups and backreferences are
outside the modelled fragment), and fallible calls return `Except`.
-/

namespace SpeechRec

/-! ## Python dictionaries as ordered association lists -/

/-- The merged replacement table: a Python `dict[str, str]`, modelled as an
insertion-ordered association list with unique keys. -/
abbrev Dict := List (String × String)

/-- Python dictionary lookup `m[k]` / `m.get(k)`. -/
def dictLookup (m : Dict) (k : String) : Option String :=
  match m with
  | [] => none
  | p :: rest => if p.1 = k then some p.2 else dictLookup rest k

/-- Python dictionary assignment `m[k] = v`: if the key is present its value
is replaced in place (the key keeps its original position), otherwise the
pair is appended (insertion order). -/
def dictInsert (m : Dict) (k v : String) : Dict :=
  if m.any (fun p => p.1 = k) then
    m.map (fun p => if p.1 = k then (k, v) else p)
  else
    m ++ [(k, v)]

/-- Python `m.update(ps)`: fold the pairs of `ps` into `m` left to right. -/
def dictUpdate (m : Dict) (ps : List (String × String)) : Dict :=
  ps.foldl (fun a p => dictInsert a p.1 p.2) m

/-! ## The shapes of dictionary-file rules

`load_term_replacements` dispatches on the dynamic shape of each entry of a
context's `"replacements"` list (speech_recognition.py lines 448-461).  The
constructors record the outcome of that dispatch; the `correct` field is an
`Option` because the Python code reads `replacement["correct"]` without
checking for the key, so a missing `"correct"` raises `KeyError`. -/

/-- One entry of a nested-shape context's `"replacements"` list. -/
inductive RepEntry where
  /-- a dict that has a `"patterns"` key (list of patterns, and the value of
  the `"correct"` key when present) -/
  | dictWithPatterns (patterns : List String) (correct : Option String)
  /-- a dict without `"patterns"` but with a `"wrong"` key -/
  | dictWithWrong (wrong : String) (correct : Option String)
  /-- a plain string entry (line 459: skipped) -/
  | strEntry (s : String)
  /-- any other shape (falls through every `elif`: skipped) -/
  | unknown
deriving DecidableEq

/-- The parsed JSON content of one dictionary file, as classified by the
`"replacements" in data` / `"contexts" in data` dispatch (lines 439-443).
A context is `none` when it has no `"replacements"` key (line 446). -/
inductive DictFile where
  /-- flat shape: `data["replacements"]` is a map, kept in JSON order -/
  | flat (pairs : List (String × String))
  /-- nested shape: the contexts of `data["contexts"]`, in order -/
  | contexts (ctxs : List (Option (List RepEntry)))
  /-- neither top-level key: the file contributes nothing -/
  | noKnownKey
deriving DecidableEq

/-- One `.json` file of the `dicts` directory as seen by the loader:
either its parsed content, or `unreadable` when opening or JSON-parsing
the file raises (the `except` at line 465 catches this per file). -/
inductive SrcFile where
  | parsed (d : DictFile)
  | unreadable
deriving DecidableEq

/-! ## The loader

`processEntries`, `processContexts` and `processFile` model the body of the
per-file `try` block (lines 434-463).  The boolean of the result is `true`
when an exception escaped partway through (a `KeyError` from a missing
`"correct"`); the returned dictionary is the state of `replacements` at
that moment, because the Python code mutates `replacements` in place, so
entries already assigned are not rolled back. -/

/-- Process the entries of one context's `"replacements"` list
(lines 448-461).  Stops at the first `KeyError`. -/
def processEntries (acc : Dict) : List RepEntry → Dict × Bool
  | [] => (acc, false)
  | .dictWithPatterns pats copt :: rest =>
    if pats.isEmpty then
      -- line 451: `if replacement["patterns"]:` is false, nothing happens
      processEntries acc rest
    else
      match copt with
      | none => (acc, true)  -- `replacement["correct"]` raises KeyError
      | some c => processEntries (pats.foldl (fun a p => dictInsert a p c) acc) rest
  | .dictWithWrong w copt :: rest =>
    match copt with
    | none => (acc, true)    -- `replacement["correct"]` raises KeyError
    | some c => processEntries (dictInsert acc w c) rest
  | .strEntry _ :: rest => processEntries acc rest
  | .unknown :: rest => processEntries acc rest

/-- Process the contexts of a nested-shape file (lines 445-461).  An
exception in one context aborts the rest of the file. -/
def processContexts (acc : Dict) : List (Option (List RepEntry)) → Dict × Bool
  | [] => (acc, false)
  | none :: rest => processContexts acc rest
  | some es :: rest =>
    match processEntries acc es with
    | (m, true) => (m, true)
    | (m, false) => processContexts m rest

/-- Process one parsed dictionary file (lines 438-461). -/
def processFile (acc : Dict) : DictFile → Dict × Bool
  | .flat ps => (dictUpdate acc ps, false)
  | .contexts cs => processContexts acc cs
  | .noKnownKey => (acc, false)

/-- One iteration of the `for json_file in json_files` loop (lines
432-466): an unreadable file is caught and skipped; a parsed file's effect
is whatever was folded before a possible in-file exception (the `except`
at line 465 swallows the error flag). -/
def fileStep (acc : Dict) (f : SrcFile) : Dict :=
  match f with
  | .unreadable => acc
  | .parsed d => (processFile acc d).1

/-- `AudioTranscriber.load_term_replacements` (lines 415-471).  The
filesystem is abstracted as `none` when the `dicts` directory does not
exist, and `some files` for the result of `dicts_dir.glob("*.json")` in
enumeration order. -/
def load_term_replacements (dicts : Option (List SrcFile)) : Dict :=
  match dicts with
  | none => []                        -- line 421-422
  | some files =>
    if files.isEmpty then []          -- line 427-428
    else files.foldl fileStep []      -- lines 432-466, starting from {}

/-! ### Which files touch a given pattern key

Syntactic over-approximations of "this file can write to key `k`", used to
state the last-writer-wins property for files that do not both define the
same key. -/

/-- Does a nested-shape entry mention `k` as a key it would bind? -/
def entryBinds (k : String) : RepEntry → Bool
  | .dictWithPatterns pats _ => pats.contains k
  | .dictWithWrong w _ => w = k
  | .strEntry _ => false
  | .unknown => false

/-- Does a context mention `k`? -/
def ctxBinds (k : String) : Option (List RepEntry) → Bool
  | none => false
  | some es => es.any (entryBinds k)

/-- Does a dictionary file define (bind) the pattern key `k` anywhere? -/
def fileDefines (k : String) : SrcFile → Bool
  | .unreadable => false
  | .parsed (.flat ps) => ps.any (fun p => p.1 = k)
  | .parsed (.contexts cs) => cs.any (ctxBinds k)
  | .parsed .noKnownKey => false

/-! ## Characters, word boundaries and case-insensitive matching

Helpers for modelling `re` substitution with `flags=re.IGNORECASE` (the
only flag the repository ever passes). -/

/-- A word character for `\b` (ASCII `[a-zA-Z0-9_]`; the model restricts
`\w` to ASCII). -/
def isWordChar (c : Char) : Bool :=
  c.isAlphanum || c = '_'

/-- Whether an `Option Char` (a character, or `none` off the ends of the
text) is a word character. -/
def isWordOpt (oc : Option Char) : Bool :=
  match oc with
  | some c => isWordChar c
  | none => false

/-- `\b`: a word boundary sits between two positions exactly when one side
is a word character and the other is not. -/
def boundary (a b : Option Char) : Bool :=
  isWordOpt a != isWordOpt b

/-- Case-insensitive character comparison (`re.IGNORECASE`, ASCII case
folding). -/
def lowerEq (a b : Char) : Bool :=
  a.toLower = b.toLower

/-- Case-insensitively strip `pat` from the front of `s`, returning the
rest on success. -/
def stripCI : List Char → List Char → Option (List Char)
  | [], s => some s
  | _ :: _, [] => none
  | p :: ps, c :: cs => if lowerEq p c then stripCI ps cs else none

/-- Whether `s` starts with `needle` (exact characters). -/
def startsWithL : List Char → List Char → Bool
  | [], _ => true
  | _ :: _, [] => false
  | a :: as, b :: bs => a = b && startsWithL as bs

/-- Whether `needle` occurs contiguously inside `hay` (Python's
`needle in hay` on strings). -/
def containsSeq (needle : List Char) : List Char → Bool
  | [] => needle.isEmpty
  | c :: rest => startsWithL needle (c :: rest) || containsSeq needle rest

/-! ## Replacement templates

`re.sub(pattern, repl, ...)` compiles the replacement string `repl` as a
template *eagerly* (CPython `sre_parse.parse_template`, reached through
`re._compile_repl`), even when the pattern never matches.  A backslash
followed by an ASCII letter that is not a recognized escape raises
`re.error("bad escape ...")`; a numeric group reference larger than the
pattern's number of groups raises `re.error("invalid group reference")`.
`parseTemplate` models this: it returns `none` exactly when the template
compiler would raise. -/

/-- A compiled template chunk: literal characters, or a group reference
(`0` is the whole match). -/
inductive TChunk where
  | lit (s : List Char)
  | grp (k : Nat)
deriving DecidableEq

/-- Digits of a numeral to a number. -/
def digitsToNat (ds : List Char) : Nat :=
  ds.foldl (fun n d => n * 10 + (d.toNat - 48)) 0

/-- Octal digits to a character code (masked with `0xff` as CPython does). -/
def octToChar (ds : List Char) : Char :=
  Char.ofNat ((ds.foldl (fun n d => n * 8 + (d.toNat - 48)) 0) % 256)

/-- Is `c` an octal digit. -/
def isOctDigit (c : Char) : Bool :=
  '0' ≤ c && c ≤ '7'

/-- Template escapes that expand to a single character
(`\a \b \f \n \r \t \v`). -/
def escCharTable : List (Char × Char) :=
  [('a', '\x07'), ('b', '\x08'), ('f', '\x0c'), ('n', '\n'),
   ('r', '\x0d'), ('t', '\t'), ('v', '\x0b')]

/-- Parse one template escape (the characters after a backslash), for a
pattern with `n` capturing groups.  Returns the chunk and the number of
characters consumed, or `none` when CPython's template parser raises. -/
def parseTEsc (n : Nat) (s : List Char) : Option (TChunk × Nat) :=
  match s with
  | [] => none  -- trailing backslash: "bad escape (end of pattern)"
  | c :: r =>
    if c = 'g' then
      -- \g<digits>: a named/numbered group reference (digits modelled)
      match r with
      | '<' :: r2 =>
        let ds := r2.takeWhile (fun d => d.isDigit)
        if ds.isEmpty then none
        else
          match r2.drop ds.length with
          | '>' :: _ =>
            if digitsToNat ds ≤ n then some (.grp (digitsToNat ds), 2 + ds.length + 1)
            else none  -- invalid group reference
          | _ => none
      | _ => none  -- "missing <"
    else if c = '0' then
      -- \0 with up to two more octal digits: an octal character escape
      let os := (r.takeWhile isOctDigit).take 2
      some (.lit [octToChar ('0' :: os)], 1 + os.length)
    else if c.isDigit then
      match r with
      | d2 :: r2 =>
        if d2.isDigit then
          match r2 with
          | d3 :: _ =>
            if isOctDigit c && isOctDigit d2 && isOctDigit d3 then
              some (.lit [octToChar [c, d2, d3]], 3)  -- three octal digits
            else if digitsToNat [c, d2] ≤ n then some (.grp (digitsToNat [c, d2]), 2)
            else none
          | [] =>
            if digitsToNat [c, d2] ≤ n then some (.grp (digitsToNat [c, d2]), 2)
            else none
        else if digitsToNat [c] ≤ n then some (.grp (digitsToNat [c]), 1)
        else none
      | [] =>
        if digitsToNat [c] ≤ n then some (.grp (digitsToNat [c]), 1)
        else none
    else
      match escCharTable.lookup c with
      | some e => some (.lit [e], 1)
      | none =>
        if c = '\\' then some (.lit ['\\'], 1)
        else if c.isAlpha then none  -- "bad escape \<letter>"
        else some (.lit ['\\', c], 1) -- unknown non-letter escape kept as-is

/-- Parse a replacement template for a pattern with `n` capturing groups
(`sre_parse.parse_template`).  `fuel` bounds the recursion; `s.length`
always suffices because every step consumes at least one character. -/
def parseTemplate (n : Nat) : Nat → List Char → Option (List TChunk)
  | _, [] => some []
  | 0, _ :: _ => none
  | fuel + 1, c :: r =>
    if c = '\\' then
      match parseTEsc n r with
      | none => none
      | some (t, k) => (parseTemplate n fuel (r.drop k)).map (fun ts => t :: ts)
    else
      (parseTemplate n fuel r).map (fun ts => .lit [c] :: ts)

/-- Expand a compiled template at one match: `whole` is the full matched
text (group 0), `caps` the captured groups. -/
def expandChunks (whole : List Char) (caps : List (Nat × List Char)) :
    List TChunk → List Char
  | [] => []
  | .lit l :: ts => l ++ expandChunks whole caps ts
  | .grp 0 :: ts => whole ++ expandChunks whole caps ts
  | .grp (k + 1) :: ts => ((caps.lookup (k + 1)).getD []) ++ expandChunks whole caps ts

/-! ## Literal whole-word substitution

`re.sub(r'\b' + re.escape(pattern) + r'\b', correct, text,
flags=re.IGNORECASE)` (speech_recognition.py lines 492 and 495): since
`re.escape` escapes every regex metacharacter, the constructed pattern
matches exactly the literal `pattern` bounded by word boundaries,
case-insensitively.  `lwsub` models the substitution scan directly:
leftmost non-overlapping matches, replaced with the expanded template;
word boundaries are evaluated on the original text. -/

/-- The substitution scan for a non-empty literal pattern.  `prev` is the
original-text character before the current position; `fuel` bounds the
recursion (`s.length + 1` suffices: every step consumes at least one
character of `s`). -/
def lwsub (pat : List Char) (chunks : List TChunk) :
    Nat → Option Char → List Char → List Char
  | 0, _, s => s
  | _ + 1, _, [] => []
  | fuel + 1, prev, c :: cs =>
    match stripCI pat (c :: cs) with
    | some rest =>
      let consumed := (c :: cs).take pat.length
      if boundary prev (some c) && boundary consumed.getLast? rest.head? then
        expandChunks consumed [] chunks ++ lwsub pat chunks fuel consumed.getLast? rest
      else
        c :: lwsub pat chunks fuel (some c) cs
    | none => c :: lwsub pat chunks fuel (some c) cs

/-- The substitution scan for the empty pattern (`\b\b`): a zero-width
match at every word boundary, with the replacement inserted there. -/
def emptyPatSub (chunks : List TChunk) : Option Char → List Char → List Char
  | prev, [] => if boundary prev none then expandChunks [] [] chunks else []
  | prev, c :: cs =>
    (if boundary prev (some c) then expandChunks [] [] chunks else [])
      ++ c :: emptyPatSub chunks (some c) cs

/-- The possible `re.error` outcomes of a modelled `re.sub` call. -/
inductive ReError where
  | badPattern   -- the pattern does not compile
  | badTemplate  -- the replacement template does not compile
deriving DecidableEq

/-- Model of `re.sub(r'\b' + re.escape(pattern) + r'\b', correct, text,
flags=re.IGNORECASE)`: the escaped pattern always compiles (it has no
capturing groups), so the only possible error is a bad replacement
template. -/
def reSubEscapedWord (pattern correct text : String) : Except ReError String :=
  match parseTemplate 0 correct.toList.length correct.toList with
  | none => .error .badTemplate
  | some chunks =>
    if pattern.toList.isEmpty then
      .ok ⟨emptyPatSub chunks none text.toList⟩
    else
      .ok ⟨lwsub pattern.toList chunks (text.toList.length + 1) none text.toList⟩

/-! ## Pattern classification (speech_recognition.py line 484)

`has_regex_chars = '\b' in pattern or '\\b' in pattern or
re.search(r'[\[\]()+?*^$]', pattern)` - in Python source, `'\b'` is the
backspace character U+0008 and `'\\b'` is the two-character sequence
backslash, `b`. -/

/-- The metacharacters scanned for by `re.search(r'[\[\]()+?*^$]', ...)`. -/
def metaChars : List Char :=
  ['[', ']', '(', ')', '+', '?', '*', '^', '$']

/-- The regex-bearing classification of a pattern (line 484). -/
def has_regex_chars (pattern : String) : Bool :=
  pattern.toList.contains '\x08'
    || containsSeq ['\\', 'b'] pattern.toList
    || pattern.toList.any (fun c => metaChars.contains c)

/-! ## A model of `re.compile` / `re.sub` for regex-bearing patterns

`postprocess_text` first tries `re.sub(pattern, correct, text,
flags=re.IGNORECASE)` treating the pattern as a regular expression
(line 489).  The model below covers the syntax fragment relevant to the
repository's dictionaries: literal characters, `.`, `^`, `$`, escapes
(`\b \B \d \D \w \W \s \S \A \Z`, character escapes, escaped
punctuation), character classes with ranges and negation, capturing
groups, alternation, and the greedy quantifiers `* + ?` and
`{m}`/`{m,}`/`{m,n}` (a `{` that is not a valid quantifier is a literal,
as in CPython).  Extension groups `(?...)` and backreferences are outside
the modelled fragment.  `compilePattern` returns `none` when the pattern
does not compile (unbalanced groups or classes, dangling quantifiers, bad
escapes). -/

/-- One item of a character class. -/
inductive ClsItem where
  | one (c : Char)
  | range (a b : Char)
  | digit (neg : Bool)
  | word (neg : Bool)
  | space (neg : Bool)
deriving DecidableEq

/-- The regular-expression abstract syntax. -/
inductive Re where
  | eps
  | ch (c : Char)
  | anyCh
  | cls (neg : Bool) (items : List ClsItem)
  | seq (a b : Re)
  | alt (a b : Re)
  | star (a : Re)
  | grp (idx : Nat) (a : Re)
  | wordB (neg : Bool)
  | bol
  | eol
deriving DecidableEq

/-- Whitespace for `\s` (Python ASCII whitespace set). -/
def isSpaceChar (c : Char) : Bool :=
  c = ' ' || c = '\t' || c = '\n' || c = '\x0d' || c = '\x0b' || c = '\x0c'

/-- Case-insensitive membership of `c` in a range. -/
def inRangeCI (a b c : Char) : Bool :=
  (a ≤ c && c ≤ b) || (a ≤ c.toLower && c.toLower ≤ b) || (a ≤ c.toUpper && c.toUpper ≤ b)

/-- Does character `c` match a class item (case-insensitively)? -/
def clsItemMatch (c : Char) : ClsItem → Bool
  | .one x => lowerEq x c
  | .range a b => inRangeCI a b c
  | .digit neg => c.isDigit != neg
  | .word neg => isWordChar c != neg
  | .space neg => isSpaceChar c != neg

/-- Does character `c` match a (possibly negated) class? -/
def clsMatch (neg : Bool) (items : List ClsItem) (c : Char) : Bool :=
  items.any (clsItemMatch c) != neg

/-- A matcher state: the remaining text, the previous original-text
character (for `\b` and `^`), and the captured groups. -/
structure MSt where
  rest : List Char
  prev : Option Char
  caps : List (Nat × List Char)
deriving DecidableEq

/-- The backtracking matcher: all ways `r` can match a prefix of
`st.rest`, as resulting states in CPython's backtracking priority order
(greedy quantifiers first, left alternative first).  `fuel` bounds the
recursion depth. -/
def mtch : Nat → Re → MSt → List MSt
  | 0, _, _ => []
  | fuel + 1, r, st =>
    match r with
    | .eps => [st]
    | .ch c =>
      match st.rest with
      | [] => []
      | x :: xs => if lowerEq c x then [⟨xs, some x, st.caps⟩] else []
    | .anyCh =>
      match st.rest with
      | [] => []
      | x :: xs => if x = '\n' then [] else [⟨xs, some x, st.caps⟩]
    | .cls neg items =>
      match st.rest with
      | [] => []
      | x :: xs => if clsMatch neg items x then [⟨xs, some x, st.caps⟩] else []
    | .wordB neg => if boundary st.prev st.rest.head? != neg then [st] else []
    | .bol => if st.prev.isNone then [st] else []
    | .eol => if st.rest.isEmpty then [st] else []
    | .seq a b => (mtch fuel a st).flatMap (mtch fuel b)
    | .alt a b => mtch fuel a st ++ mtch fuel b st
    | .grp i a =>
      (mtch fuel a st).map (fun st2 =>
        ⟨st2.rest, st2.prev, (i, st.rest.take (st.rest.length - st2.rest.length)) :: st2.caps⟩)
    | .star a =>
      ((mtch fuel a st).filter (fun st2 => st2.rest.length < st.rest.length)).flatMap
        (fun st2 => mtch fuel (.star a) st2) ++ [st]

/-- Structural size of a regex, used to bound matcher fuel. -/
def sizeRe : Re → Nat
  | .eps | .ch _ | .anyCh | .cls _ _ | .wordB _ | .bol | .eol => 1
  | .seq a b | .alt a b => sizeRe a + sizeRe b + 1
  | .star a | .grp _ a => sizeRe a + 1

/-- The first (highest-priority) match of `r` at the current position, if
any: CPython's backtracking match. -/
def matchAt (r : Re) (prev : Option Char) (s : List Char) : Option MSt :=
  (mtch ((sizeRe r + 2) * (s.length + 2)) r ⟨s, prev, []⟩).head?

/-- The `re.sub` scan for a compiled regex: leftmost matches, replaced
with the expanded template; a zero-width match is replaced and the scan
advances one character (CPython 3.7+ behaviour). -/
def engineSub (r : Re) (chunks : List TChunk) : Nat → Option Char → List Char → List Char
  | 0, _, s => s
  | fuel + 1, prev, s =>
    match matchAt r prev s with
    | some st2 =>
      let k := s.length - st2.rest.length
      let consumed := s.take k
      let rep := expandChunks consumed st2.caps chunks
      if k = 0 then
        match s with
        | [] => rep
        | c :: cs => rep ++ c :: engineSub r chunks fuel (some c) cs
      else
        rep ++ engineSub r chunks fuel consumed.getLast? (s.drop k)
    | none =>
      match s with
      | [] => []
      | c :: cs => c :: engineSub r chunks fuel (some c) cs

/-! ### The pattern parser -/

/-- Pattern escapes that denote a single character
(`\a \f \n \r \t \v` and `\b` *inside a class* is backspace, handled at
the class parser). -/
def patEscChar : Char → Option Char :=
  fun c =>
    match escCharTable.lookup c with
    | some e => if c = 'b' then none else some e  -- \b is a boundary outside classes
    | none => none

/-- Parse one escape of a pattern (the characters after a backslash),
outside a character class. -/
def parsePatEsc (s : List Char) : Option (Re × List Char) :=
  match s with
  | [] => none  -- "bad escape (end of pattern)"
  | c :: r =>
    if c = 'b' then some (.wordB false, r)
    else if c = 'B' then some (.wordB true, r)
    else if c = 'A' then some (.bol, r)
    else if c = 'Z' then some (.eol, r)
    else if c = 'd' then some (.cls false [.digit false], r)
    else if c = 'D' then some (.cls false [.digit true], r)
    else if c = 'w' then some (.cls false [.word false], r)
    else if c = 'W' then some (.cls false [.word true], r)
    else if c = 's' then some (.cls false [.space false], r)
    else if c = 'S' then some (.cls false [.space true], r)
    else
      match patEscChar c with
      | some e => some (.ch e, r)
      | none =>
        if c.isDigit || c.isAlpha then none
          -- backreferences are outside the modelled fragment;
          -- an unknown ASCII-letter escape is "bad escape" in CPython
        else some (.ch c, r)  -- escaped punctuation: a literal

/-- Parse one item of a character class body (after resolving initial
`]`).  Returns the item and the rest. -/
def parseClsItem (s : List Char) : Option (ClsItem × List Char) :=
  match s with
  | [] => none
  | '\\' :: e :: r =>
    if e = 'd' then some (.digit false, r)
    else if e = 'D' then some (.digit true, r)
    else if e = 'w' then some (.word false, r)
    else if e = 'W' then some (.word true, r)
    else if e = 's' then some (.space false, r)
    else if e = 'S' then some (.space true, r)
    else if e = 'b' then some (.one '\x08', r)  -- \b inside a class is backspace
    else
      match patEscChar e with
      | some ec => some (.one ec, r)
      | none =>
        if e.isAlpha || e.isDigit then none
        else some (.one e, r)
  | '\\' :: [] => none
  | c :: r => some (.one c, r)

/-- Parse the items of a character class up to the closing `]`.  `fuel`
bounds the recursion. -/
def parseClsItems : Nat → List Char → Option (List ClsItem × List Char)
  | 0, _ => none
  | _ + 1, [] => none  -- unterminated class
  | fuel + 1, s =>
    match s with
    | ']' :: r => some ([], r)
    | _ =>
      match parseClsItem s with
      | none => none
      | some (it, r1) =>
        -- a `-` with a following non-`]` item makes a range
        match it, r1 with
        | .one a, '-' :: r2 =>
          match r2 with
          | ']' :: r3 =>
            -- trailing `-` is a literal
            (parseClsItems fuel (']' :: r3)).map (fun p => (ClsItem.one a :: .one '-' :: p.1, p.2))
          | _ =>
            match parseClsItem r2 with
            | some (.one b, r3) =>
              if a ≤ b then (parseClsItems fuel r3).map (fun p => (ClsItem.range a b :: p.1, p.2))
              else none  -- "bad character range"
            | _ => none
        | _, _ => (parseClsItems fuel r1).map (fun p => (it :: p.1, p.2))

/-- Parse a character class after the opening `[` (handling `^` negation
and a leading literal `]`). -/
def parseCls (fuel : Nat) (s : List Char) : Option (Re × List Char) :=
  let (neg, s1) :=
    match s with
    | '^' :: r => (true, r)
    | _ => (false, s)
  let (lead, s2) :=
    match s1 with
    | ']' :: r => ([ClsItem.one ']'], r)  -- a `]` first in the class is literal
    | _ => ([], s1)
  (parseClsItems fuel s2).map (fun p => (Re.cls neg (lead ++ p.1), p.2))

/-- `n`-fold sequential repetition of `r`. -/
def reRepeat (r : Re) : Nat → Re
  | 0 => .eps
  | n + 1 => .seq r (reRepeat r n)

/-- Up to `n` further (greedy, optional) repetitions of `r`. -/
def reUpTo (r : Re) : Nat → Re
  | 0 => .eps
  | n + 1 => .alt (.seq r (reUpTo r n)) .eps

/-- Try to parse a `{m}`, `{m,}` or `{m,n}` quantifier body after the
opening brace.  Returns the bounds and the rest; `none` means the brace is
not a quantifier (and stays a literal, as in CPython). -/
def parseQuantBody (s : List Char) : Option ((Nat × Option Nat) × List Char) :=
  let ds := s.takeWhile (fun d => d.isDigit)
  if ds.isEmpty then none
  else
    let m := digitsToNat ds
    match s.drop ds.length with
    | '\x7d' :: r => some ((m, some m), r)
    | ',' :: r2 =>
      let ds2 := r2.takeWhile (fun d => d.isDigit)
      match r2.drop ds2.length with
      | '\x7d' :: r3 =>
        if ds2.isEmpty then some ((m, none), r3)
        else some ((m, some (digitsToNat ds2)), r3)
      | _ => none
    | _ => none

/-- The parser's nonterminals. -/
inductive PMode where
  | alt    -- an alternation `seq ('|' seq)*`
  | seqr   -- a sequence of pieces, ending at `|`, `)` or the end
  | piece  -- an atom with an optional quantifier
  | atom   -- a single atom
deriving DecidableEq

/-- Recursive-descent pattern parser.  `gc` is the number of capturing
groups opened so far (CPython numbers groups by the position of their
opening parenthesis); the result carries the regex, the updated group
count, and the remaining input.  `fuel` bounds the recursion;
`compilePattern` supplies an amply large value. -/
def parseRe : Nat → PMode → Nat → List Char → Option (Re × Nat × List Char)
  | 0, _, _, _ => none
  | fuel + 1, .alt, gc, s =>
    match parseRe fuel .seqr gc s with
    | none => none
    | some (r, gc2, rest) =>
      match rest with
      | '|' :: rest2 =>
        match parseRe fuel .alt gc2 rest2 with
        | none => none
        | some (r2, gc3, rest3) => some (.alt r r2, gc3, rest3)
      | _ => some (r, gc2, rest)
  | fuel + 1, .seqr, gc, s =>
    match s with
    | [] => some (.eps, gc, [])
    | c :: _ =>
      if c = '|' || c = ')' then some (.eps, gc, s)
      else
        match parseRe fuel .piece gc s with
        | none => none
        | some (r, gc2, rest) =>
          match parseRe fuel .seqr gc2 rest with
          | none => none
          | some (r2, gc3, rest3) => some (.seq r r2, gc3, rest3)
  | fuel + 1, .piece, gc, s =>
    match parseRe fuel .atom gc s with
    | none => none
    | some (r, gc2, rest) =>
      match rest with
      | '*' :: rest2 => some (.star r, gc2, rest2)
      | '+' :: rest2 => some (.seq r (.star r), gc2, rest2)
      | '?' :: rest2 => some (.alt r .eps, gc2, rest2)
      | '\x7b' :: rest2 =>
        match parseQuantBody rest2 with
        | some ((m, some n), rest3) =>
          if n < m then none  -- "min repeat greater than max repeat"
          else some (.seq (reRepeat r m) (reUpTo r (n - m)), gc2, rest3)
        | some ((m, none), rest3) => some (.seq (reRepeat r m) (.star r), gc2, rest3)
        | none => some (r, gc2, rest)  -- the brace is a literal atom, parsed next
      | _ => some (r, gc2, rest)
  | fuel + 1, .atom, gc, s =>
    match s with
    | [] => none
    | c :: r =>
      if c = '(' then
        match r with
        | '?' :: _ => none  -- extension groups are outside the modelled fragment
        | _ =>
          match parseRe fuel .alt (gc + 1) r with
          | none => none
          | some (rInner, gc2, rest) =>
            match rest with
            | ')' :: rest2 => some (.grp (gc + 1) rInner, gc2, rest2)
            | _ => none  -- "missing ), unterminated subpattern"
      else if c = '[' then parseCls fuel r |>.map (fun p => (p.1, gc, p.2))
      else if c = '\\' then parsePatEsc r |>.map (fun p => (p.1, gc, p.2))
      else if c = '*' || c = '+' || c = '?' then none  -- "nothing to repeat"
      else if c = ')' || c = '|' then none
      else if c = '.' then some (.anyCh, gc, r)
      else if c = '^' then some (.bol, gc, r)
      else if c = '$' then some (.eol, gc, r)
      else some (.ch c, gc, r)

/-- Model of `re.compile(pattern, re.IGNORECASE)` for the modelled syntax
fragment: the compiled regex and its number of capturing groups, or
`none` when compilation raises `re.error`. -/
def compilePattern (pattern : String) : Option (Re × Nat) :=
  match parseRe (8 * (pattern.toList.length + 2)) .alt 0 pattern.toList with
  | some (r, gc, []) => some (r, gc)
  | _ => none  -- leftover input (e.g. an unbalanced `)`) or a parse error

/-- Model of `re.sub(pattern, correct, text, flags=re.IGNORECASE)` with
the pattern used as a regular expression (line 489): compile the pattern,
compile the replacement template against its group count, then run the
substitution scan. -/
def reSubGeneric (pattern correct text : String) : Except ReError String :=
  match compilePattern pattern with
  | none => .error .badPattern
  | some (r, ng) =>
    match parseTemplate ng correct.toList.length correct.toList with
    | none => .error .badTemplate
    | some chunks => .ok ⟨engineSub r chunks (text.toList.length + 1) none text.toList⟩

/-! ## The post-processing pass -/

/-- The body of the `for pattern, correct in replacements.items()` loop
(lines 481-495): classify the pattern, try it as a regex when
regex-bearing, and fall back to (or directly use) the literal whole-word
substitution.  An `re.error` of the fallback call itself is not caught
and propagates. -/
def applyPattern (pattern correct text : String) : Except ReError String :=
  if has_regex_chars pattern then
    match reSubGeneric pattern correct text with
    | .ok t => .ok t
    | .error _ => reSubEscapedWord pattern correct text  -- `except re.error` (line 490)
  else
    reSubEscapedWord pattern correct text

/-- `AudioTranscriber.postprocess_text` (lines 473-497), as the pure
function of the text and the replacement table (the test copy in
test_dict_loading.py lines 69-90 has exactly this signature).  An
uncaught `re.error` from inside the loop is the `.error` outcome. -/
def postprocess_text (text : String) (replacements : Dict) : Except ReError String :=
  if replacements.isEmpty then .ok text  -- line 475-476
  else
    replacements.foldlM (fun t pc => applyPattern pc.1 pc.2 t) text

/-! # Lemmas about the dictionary model -/

theorem dictLookup_cons (p : String × String) (rest : Dict) (k : String) :
    dictLookup (p :: rest) k = if p.1 = k then some p.2 else dictLookup rest k := rfl

theorem dictLookup_map_replace (m : Dict) (k v : String)
    (h : m.any (fun p => p.1 = k) = true) :
    dictLookup (m.map (fun p => if p.1 = k then (k, v) else p)) k = some v := by
  induction m with
  | nil => simp at h
  | cons hd tl ih =>
    rw [List.map_cons, dictLookup_cons]
    by_cases hk : hd.1 = k
    · rw [if_pos hk]
      simp
    · rw [List.any_cons, Bool.or_eq_true] at h
      have h' : tl.any (fun p => p.1 = k) = true := by
        rcases h with h1 | h1
        · exact absurd (of_decide_eq_true h1) hk
        · exact h1
      rw [if_neg hk, if_neg hk]
      exact ih h'

theorem dictLookup_append_self (m : Dict) (k v : String)
    (h : m.any (fun p => p.1 = k) = false) :
    dictLookup (m ++ [(k, v)]) k = some v := by
  induction m with
  | nil => simp [dictLookup]
  | cons hd tl ih =>
    rw [List.any_cons, Bool.or_eq_false_iff] at h
    have hk : ¬ hd.1 = k := by
      intro hh
      exact absurd (decide_eq_true hh) (by simp [h.1])
    rw [List.cons_append, dictLookup_cons, if_neg hk]
    exact ih h.2

/-- A dictionary assignment makes the assigned value the one looked up. -/
theorem dictLookup_insert_self (m : Dict) (k v : String) :
    dictLookup (dictInsert m k v) k = some v := by
  unfold dictInsert
  by_cases h : m.any (fun p => p.1 = k) = true
  · rw [if_pos h]
    exact dictLookup_map_replace m k v h
  · rw [if_neg h]
    exact dictLookup_append_self m k v (Bool.not_eq_true _ ▸ h)

theorem dictLookup_map_replace_other (m : Dict) (k k2 v : String) (h : k ≠ k2) :
    dictLookup (m.map (fun p => if p.1 = k then (k, v) else p)) k2 = dictLookup m k2 := by
  induction m with
  | nil => rfl
  | cons hd tl ih =>
    rw [List.map_cons, dictLookup_cons, dictLookup_cons]
    by_cases hk : hd.1 = k
    · have hne : ¬ (k, v).1 = k2 := h
      have hne2 : ¬ hd.1 = k2 := hk ▸ hne
      rw [if_pos hk, if_neg hne, if_neg hne2]
      exact ih
    · rw [if_neg hk]
      by_cases hk2 : hd.1 = k2
      · rw [if_pos hk2, if_pos hk2]
      · rw [if_neg hk2, if_neg hk2]
        exact ih

theorem dictLookup_append_other (m : Dict) (k k2 v : String) (h : k ≠ k2) :
    dictLookup (m ++ [(k, v)]) k2 = dictLookup m k2 := by
  induction m with
  | nil =>
    have hne : ¬ (k, v).1 = k2 := h
    simp [dictLookup, hne]
  | cons hd tl ih =>
    rw [List.cons_append, dictLookup_cons, dictLookup_cons]
    by_cases hk2 : hd.1 = k2
    · rw [if_pos hk2, if_pos hk2]
    · rw [if_neg hk2, if_neg hk2]
      exact ih

/-- A dictionary assignment leaves other keys unchanged. -/
theorem dictLookup_insert_other (m : Dict) (k k2 v : String) (h : k ≠ k2) :
    dictLookup (dictInsert m k v) k2 = dictLookup m k2 := by
  unfold dictInsert
  by_cases hc : m.any (fun p => p.1 = k) = true
  · rw [if_pos hc]
    exact dictLookup_map_replace_other m k k2 v h
  · rw [if_neg hc]
    exact dictLookup_append_other m k k2 v h

/-- Folding a list of patterns into the table with one shared correction:
the looked-up value afterwards. -/
theorem dictLookup_foldl_insert (pats : List String) (acc : Dict) (c p : String) :
    dictLookup (pats.foldl (fun a q => dictInsert a q c) acc) p
      = if p ∈ pats then some c else dictLookup acc p := by
  induction pats generalizing acc with
  | nil => simp
  | cons q rest ih =>
    rw [List.foldl_cons, ih]
    by_cases hp : p ∈ rest
    · simp [hp]
    · by_cases hq : q = p
      · subst hq
        simp [hp, dictLookup_insert_self]
      · have hpq : ¬ p = q := fun hh => hq hh.symm
        simp [hp, hpq, dictLookup_insert_other acc q p c hq]

/-- `dictUpdate` with pairs that never mention `k` leaves `k` unchanged. -/
theorem dictLookup_update_other (ps : List (String × String)) (m : Dict) (k : String)
    (h : ps.any (fun p => p.1 = k) = false) :
    dictLookup (dictUpdate m ps) k = dictLookup m k := by
  induction ps generalizing m with
  | nil => rfl
  | cons hd tl ih =>
    rw [List.any_cons, Bool.or_eq_false_iff] at h
    have hk : hd.1 ≠ k := by
      intro hh
      exact absurd (decide_eq_true hh) (by simp [h.1])
    unfold dictUpdate
    rw [List.foldl_cons]
    have htl := ih (dictInsert m hd.1 hd.2) h.2
    unfold dictUpdate at htl
    rw [htl, dictLookup_insert_other _ _ _ _ hk]

/-! # Lemmas about the loader -/

theorem processEntries_nil (acc : Dict) : processEntries acc [] = (acc, false) := rfl

theorem processEntries_patterns (acc : Dict) (pats : List String)
    (copt : Option String) (rest : List RepEntry) :
    processEntries acc (.dictWithPatterns pats copt :: rest)
      = if pats.isEmpty then processEntries acc rest
        else
          match copt with
          | none => (acc, true)
          | some c => processEntries (pats.foldl (fun a p => dictInsert a p c) acc) rest := by
  cases copt <;> rfl

theorem processEntries_wrong (acc : Dict) (w : String) (copt : Option String)
    (rest : List RepEntry) :
    processEntries acc (.dictWithWrong w copt :: rest)
      = match copt with
        | none => (acc, true)
        | some c => processEntries (dictInsert acc w c) rest := by
  cases copt <;> rfl

theorem processEntries_str (acc : Dict) (s : String) (rest : List RepEntry) :
    processEntries acc (.strEntry s :: rest) = processEntries acc rest := rfl

theorem processEntries_unknown (acc : Dict) (rest : List RepEntry) :
    processEntries acc (.unknown :: rest) = processEntries acc rest := rfl

/-- Entries that never mention key `k` leave `k`'s value unchanged,
whether or not a `KeyError` stops the fold partway. -/
theorem processEntries_not_bound (es : List RepEntry) (acc : Dict) (k : String)
    (h : ∀ e ∈ es, entryBinds k e = false) :
    dictLookup (processEntries acc es).1 k = dictLookup acc k := by
  induction es generalizing acc with
  | nil => rfl
  | cons e rest ih =>
    have he : entryBinds k e = false := h e (List.mem_cons_self e rest)
    have hrest : ∀ e2 ∈ rest, entryBinds k e2 = false :=
      fun e2 hm => h e2 (List.mem_cons_of_mem e hm)
    cases e with
    | dictWithPatterns pats copt =>
      have hk : ¬ k ∈ pats := by
        simp only [entryBinds] at he
        simpa using he
      rw [processEntries_patterns]
      by_cases hemp : pats.isEmpty
      · rw [if_pos hemp]
        exact ih acc hrest
      · rw [if_neg hemp]
        cases copt with
        | none => rfl
        | some c =>
          simp only
          rw [ih _ hrest, dictLookup_foldl_insert, if_neg hk]
    | dictWithWrong w copt =>
      have hw : w ≠ k := by
        simp only [entryBinds] at he
        simpa using he
      rw [processEntries_wrong]
      cases copt with
      | none => rfl
      | some c =>
        simp only
        rw [ih _ hrest, dictLookup_insert_other _ _ _ _ hw]
    | strEntry s => exact ih acc hrest
    | unknown => exact ih acc hrest

/-- Contexts that never mention key `k` leave `k`'s value unchanged. -/
theorem processContexts_not_bound (cs : List (Option (List RepEntry))) (acc : Dict)
    (k : String) (h : ∀ c ∈ cs, ctxBinds k c = false) :
    dictLookup (processContexts acc cs).1 k = dictLookup acc k := by
  induction cs generalizing acc with
  | nil => rfl
  | cons c rest ih =>
    have hc : ctxBinds k c = false := h c (List.mem_cons_self c rest)
    have hrest : ∀ c2 ∈ rest, ctxBinds k c2 = false :=
      fun c2 hm => h c2 (List.mem_cons_of_mem c hm)
    cases c with
    | none => exact ih acc hrest
    | some es =>
      have hes : ∀ e ∈ es, entryBinds k e = false := by
        intro e hm
        rw [show ctxBinds k (some es) = es.any (entryBinds k) from rfl] at hc
        have := List.any_eq_false.mp hc e hm
        simpa using this
      rw [show processContexts acc (some es :: rest)
          = match processEntries acc es with
            | (m, true) => (m, true)
            | (m, false) => processContexts m rest from rfl]
      rcases hpe : processEntries acc es with ⟨m, b⟩
      have hm : dictLookup m k = dictLookup acc k := by
        have := processEntries_not_bound es acc k hes
        rw [hpe] at this
        exact this
      cases b with
      | true => simpa using hm
      | false => simp only; rw [ih m hrest, hm]

/-- A file that does not define key `k` leaves `k`'s value unchanged. -/
theorem fileStep_not_defines (f : SrcFile) (acc : Dict) (k : String)
    (h : fileDefines k f = false) :
    dictLookup (fileStep acc f) k = dictLookup acc k := by
  cases f with
  | unreadable => rfl
  | parsed d =>
    cases d with
    | flat ps =>
      exact dictLookup_update_other ps acc k h
    | contexts cs =>
      refine processContexts_not_bound cs acc k ?_
      intro c hm
      have := List.any_eq_false.mp h c hm
      simpa using this
    | noKnownKey => rfl

/-- Folding files that do not define key `k` leaves `k`'s value
unchanged. -/
theorem foldl_fileStep_not_defines (fs : List SrcFile) (acc : Dict) (k : String)
    (h : ∀ f ∈ fs, fileDefines k f = false) :
    dictLookup (fs.foldl fileStep acc) k = dictLookup acc k := by
  induction fs generalizing acc with
  | nil => rfl
  | cons f rest ih =>
    rw [List.foldl_cons, ih _ (fun f2 hm => h f2 (List.mem_cons_of_mem f hm)),
      fileStep_not_defines f acc k (h f (List.mem_cons_self f rest))]

/-- Unfolding the loader on an existing directory with at least one file. -/
theorem load_some_of_ne_nil (fs : List SrcFile) (h : fs ≠ []) :
    load_term_replacements (some fs) = fs.foldl fileStep [] := by
  rw [show load_term_replacements (some fs)
      = if fs.isEmpty then [] else fs.foldl fileStep [] from rfl]
  rw [if_neg (by simpa [List.isEmpty_iff] using h)]

/-- When no `KeyError` occurs on `es1`, processing `es1 ++ es2` first
processes `es1` and continues with `es2` from the accumulated table. -/
theorem processEntries_append (es1 es2 : List RepEntry) (acc : Dict)
    (h : (processEntries acc es1).2 = false) :
    processEntries acc (es1 ++ es2) = processEntries (processEntries acc es1).1 es2 := by
  induction es1 generalizing acc with
  | nil => rfl
  | cons e rest ih =>
    cases e with
    | dictWithPatterns pats copt =>
      rw [processEntries_patterns] at h
      rw [List.cons_append, processEntries_patterns]
      by_cases hemp : pats.isEmpty
      · rw [if_pos hemp]
        rw [if_pos hemp] at h
        rw [ih acc h, show processEntries acc (.dictWithPatterns pats copt :: rest)
            = processEntries acc rest by rw [processEntries_patterns, if_pos hemp]]
      · rw [if_neg hemp]
        rw [if_neg hemp] at h
        cases copt with
        | none => simp at h
        | some c =>
          simp only at h ⊢
          rw [ih _ h, show processEntries acc (.dictWithPatterns pats (some c) :: rest)
              = processEntries (pats.foldl (fun a p => dictInsert a p c) acc) rest by
            rw [processEntries_patterns, if_neg hemp]]
    | dictWithWrong w copt =>
      rw [processEntries_wrong] at h
      rw [List.cons_append, processEntries_wrong]
      cases copt with
      | none => simp at h
      | some c =>
        simp only at h ⊢
        rw [ih _ h, show processEntries acc (.dictWithWrong w (some c) :: rest)
            = processEntries (dictInsert acc w c) rest from rfl]
    | strEntry s =>
      rw [processEntries_str] at h
      rw [List.cons_append, processEntries_str, ih acc h,
        show processEntries acc (.strEntry s :: rest) = processEntries acc rest from rfl]
    | unknown =>
      rw [processEntries_unknown] at h
      rw [List.cons_append, processEntries_unknown, ih acc h,
        show processEntries acc (.unknown :: rest) = processEntries acc rest from rfl]

/-- The table after a single-context file is the table after its entries,
whether or not a `KeyError` occurred. -/
theorem processContexts_single (acc : Dict) (es : List RepEntry) :
    (processContexts acc [some es]).1 = (processEntries acc es).1 := by
  rw [show processContexts acc [some es]
      = match processEntries acc es with
        | (m, true) => (m, true)
        | (m, false) => processContexts m [] from rfl]
  rcases hpe : processEntries acc es with ⟨m, b⟩
  cases b <;> rfl

/-! # Lemmas about the post-processor -/

theorem parseTemplate_cons (n fuel : Nat) (c : Char) (r : List Char) :
    parseTemplate n (fuel + 1) (c :: r)
      = if c = '\\' then
          match parseTEsc n r with
          | none => none
          | some (t, k) => (parseTemplate n fuel (r.drop k)).map (fun ts => t :: ts)
        else (parseTemplate n fuel r).map (fun ts => .lit [c] :: ts) := rfl

/-- A replacement string with no backslash always compiles as a
template. -/
theorem parseTemplate_no_backslash (n : Nat) (fuel : Nat) (s : List Char)
    (hf : s.length ≤ fuel) (h : '\\' ∉ s) :
    ∃ ts, parseTemplate n fuel s = some ts := by
  induction fuel generalizing s with
  | zero =>
    cases s with
    | nil => exact ⟨[], rfl⟩
    | cons c cs => simp at hf
  | succ f ih =>
    cases s with
    | nil => exact ⟨[], rfl⟩
    | cons c cs =>
      have hc : ¬ c = '\\' := fun hh => h (hh ▸ List.mem_cons_self c cs)
      have hcs : '\\' ∉ cs := fun hm => h (List.mem_cons_of_mem c hm)
      have hlen : cs.length ≤ f := by
        rw [List.length_cons] at hf
        exact Nat.le_of_succ_le_succ hf
      obtain ⟨ts, hts⟩ := ih cs hlen hcs
      rw [parseTemplate_cons, if_neg hc, hts]
      exact ⟨_, rfl⟩

/-- The literal whole-word substitution call succeeds whenever the
replacement string contains no backslash. -/
theorem reSubEscapedWord_ok (p c t : String) (h : '\\' ∉ c.toList) :
    ∃ s, reSubEscapedWord p c t = .ok s := by
  obtain ⟨ts, hts⟩ := parseTemplate_no_backslash 0 c.toList.length c.toList le_rfl h
  unfold reSubEscapedWord
  rw [hts]
  dsimp only
  by_cases hp : p.toList.isEmpty
  · rw [if_pos hp]
    exact ⟨_, rfl⟩
  · rw [if_neg hp]
    exact ⟨_, rfl⟩

/-- One loop iteration of `postprocess_text` succeeds whenever the
replacement string contains no backslash, whatever the pattern. -/
theorem applyPattern_ok (p c t : String) (h : '\\' ∉ c.toList) :
    ∃ s, applyPattern p c t = .ok s := by
  unfold applyPattern
  by_cases hr : has_regex_chars p
  · rw [if_pos hr]
    cases hg : reSubGeneric p c t with
    | ok s => exact ⟨s, rfl⟩
    | error e => exact reSubEscapedWord_ok p c t h
  · rw [if_neg hr]
    exact reSubEscapedWord_ok p c t h

/-- The substitution loop never raises when no replacement string
contains a backslash. -/
theorem foldlM_applyPattern_ok (m : Dict) (t : String)
    (h : ∀ pc ∈ m, '\\' ∉ pc.2.toList) :
    ∃ s, List.foldlM (fun t2 pc => applyPattern pc.1 pc.2 t2) t m = Except.ok s := by
  induction m generalizing t with
  | nil => exact ⟨t, rfl⟩
  | cons pc rest ih =>
    obtain ⟨s1, h1⟩ := applyPattern_ok pc.1 pc.2 t (h pc (List.mem_cons_self pc rest))
    rw [List.foldlM_cons, h1,
      show ((Except.ok s1 : Except ReError String) >>=
          fun t2 => List.foldlM (fun t2 pc => applyPattern pc.1 pc.2 t2) t2 rest)
        = List.foldlM (fun t2 pc => applyPattern pc.1 pc.2 t2) s1 rest from rfl]
    exact ih s1 (fun pc2 hm => h pc2 (List.mem_cons_of_mem pc hm))

/-! # The claims -/

/-- C1, counterexample: the claim "the post-processing pass never raises
an error to the caller" is false.  The pattern `"("` is regex-bearing and
not a valid regular expression, so the fallback literal substitution runs
- but with the replacement string `"\q"`, the fallback `re.sub` call
itself raises `re.error` ("bad escape \q") while compiling the
replacement template, and that error is not caught (it is raised inside
the `except re.error` handler), so `postprocess_text` raises. -/
theorem C1_never_raises_counterexample :
    has_regex_chars "(" = true ∧
    compilePattern "(" = none ∧
    postprocess_text "hello" [("(", "\\q")] = .error .badTemplate := by
  refine ⟨by decide, by decide, by rfl⟩

/-- C1, amended: for every replacement mapping and text, a pattern that
is classified as regex-bearing but is not a syntactically valid regular
expression is handled by falling back to literal whole-word
case-insensitive substitution of the escaped pattern; and the
post-processing pass never raises an error to the caller provided every
replacement string is a valid substitution template (in particular, when
no replacement string contains a backslash). -/
theorem C1_invalid_regex_fallback :
    (∀ p c t : String, has_regex_chars p = true → compilePattern p = none →
        applyPattern p c t = reSubEscapedWord p c t) ∧
    (∀ (m : Dict) (t : String), (∀ pc ∈ m, '\\' ∉ pc.2.toList) →
        ∃ s, postprocess_text t m = .ok s) := by
  constructor
  · intro p c t h1 h2
    unfold applyPattern
    rw [if_pos h1, show reSubGeneric p c t = .error .badPattern by
      unfold reSubGeneric; rw [h2]]
  · intro m t h
    unfold postprocess_text
    by_cases hm : m.isEmpty
    · rw [if_pos hm]
      exact ⟨t, rfl⟩
    · rw [if_neg hm]
      exact foldlM_applyPattern_ok m t h

/-- C1, witness: the amended theorem applied at the invalid regex `"("`
with replacement `"z"`, and at a backslash-free mapping. -/
theorem C1_invalid_regex_fallback_witness :
    applyPattern "(" "z" "a ( b" = reSubEscapedWord "(" "z" "a ( b" ∧
    ∃ s, postprocess_text "x foo y" [("foo", "bar")] = .ok s :=
  ⟨C1_invalid_regex_fallback.1 "(" "z" "a ( b" (by decide) (by decide),
   C1_invalid_regex_fallback.2 [("foo", "bar")] "x foo y" (by decide)⟩

/-- C2: when two dictionary files both define the same pattern key (and
no other file in between or after touches that key), the merged table
assigns the key the correction from the later-processed file
(last-writer-wins). -/
theorem C2_last_writer_wins (pre mid post : List SrcFile) (k v1 v2 : String)
    (hmid : ∀ f ∈ mid, fileDefines k f = false)
    (hpost : ∀ f ∈ post, fileDefines k f = false) :
    dictLookup
      (load_term_replacements (some (pre ++ SrcFile.parsed (.flat [(k, v1)]) :: mid))) k
      = some v1 ∧
    dictLookup
      (load_term_replacements (some (pre ++ SrcFile.parsed (.flat [(k, v1)])
        :: (mid ++ SrcFile.parsed (.flat [(k, v2)]) :: post)))) k
      = some v2 := by
  constructor
  · rw [load_some_of_ne_nil _ (by simp)]
    rw [List.foldl_append, List.foldl_cons]
    rw [foldl_fileStep_not_defines mid _ k hmid]
    rw [show fileStep (List.foldl fileStep [] pre) (SrcFile.parsed (.flat [(k, v1)]))
        = dictInsert (List.foldl fileStep [] pre) k v1 from rfl]
    exact dictLookup_insert_self _ k v1
  · rw [load_some_of_ne_nil _ (by simp)]
    rw [List.foldl_append, List.foldl_cons, List.foldl_append, List.foldl_cons]
    rw [foldl_fileStep_not_defines post _ k hpost]
    rw [show fileStep (List.foldl fileStep
          (fileStep (List.foldl fileStep [] pre) (SrcFile.parsed (.flat [(k, v1)]))) mid)
          (SrcFile.parsed (.flat [(k, v2)]))
        = dictInsert (List.foldl fileStep
            (fileStep (List.foldl fileStep [] pre) (SrcFile.parsed (.flat [(k, v1)]))) mid)
            k v2 from rfl]
    exact dictLookup_insert_self _ k v2

/-- C2, witness: the theorem applied to a concrete run with a leading
unreadable file and the two conflicting flat files. -/
theorem C2_last_writer_wins_witness :
    dictLookup
      (load_term_replacements (some ([SrcFile.unreadable]
        ++ SrcFile.parsed (.flat [("term", "v1")]) :: []))) "term" = some "v1" ∧
    dictLookup
      (load_term_replacements (some ([SrcFile.unreadable]
        ++ SrcFile.parsed (.flat [("term", "v1")])
        :: ([] ++ SrcFile.parsed (.flat [("term", "v2")]) :: []))))
      "term" = some "v2" :=
  C2_last_writer_wins [SrcFile.unreadable] [] [] "term" "v1" "v2"
    (by intro f hf; cases hf) (by intro f hf; cases hf)

/-- C3: an unreadable or unparsable dictionary file is skipped - the
loader returns exactly what it would have returned on the same list of
files without the bad one, so one bad file never aborts the scan of the
remaining files and the loader never raises. -/
theorem C3_unreadable_file_skipped (fs1 fs2 : List SrcFile) :
    load_term_replacements (some (fs1 ++ SrcFile.unreadable :: fs2))
      = load_term_replacements (some (fs1 ++ fs2)) := by
  have hfold : List.foldl fileStep [] (fs1 ++ SrcFile.unreadable :: fs2)
      = List.foldl fileStep [] (fs1 ++ fs2) := by
    rw [List.foldl_append, List.foldl_append, List.foldl_cons]
    rfl
  by_cases h : fs1 ++ fs2 = []
  · obtain ⟨h1, h2⟩ := List.append_eq_nil.mp h
    subst h1
    subst h2
    rfl
  · rw [load_some_of_ne_nil _ (by simp), load_some_of_ne_nil _ h, hfold]

/-- C4: in a nested-shape file, a rule with a non-empty `patterns` list
contributes one mapping entry per listed pattern, all mapping to the
rule's single correction, and leaves every other key unchanged; a rule
with an empty `patterns` list contributes nothing (and raises no
`KeyError` even when `correct` is missing). -/
theorem C4_patterns_fanout :
    (∀ (acc : Dict) (pats : List String) (c p : String), pats ≠ [] →
        ((p ∈ pats →
            dictLookup (processEntries acc [.dictWithPatterns pats (some c)]).1 p = some c) ∧
         (p ∉ pats →
            dictLookup (processEntries acc [.dictWithPatterns pats (some c)]).1 p
              = dictLookup acc p))) ∧
    (∀ (acc : Dict) (copt : Option String),
        processEntries acc [.dictWithPatterns [] copt] = (acc, false)) := by
  constructor
  · intro acc pats c p hne
    have hemp : ¬ pats.isEmpty := by simpa [List.isEmpty_iff] using hne
    have hpe : processEntries acc [.dictWithPatterns pats (some c)]
        = (pats.foldl (fun a q => dictInsert a q c) acc, false) := by
      rw [processEntries_patterns, if_neg hemp]
      rfl
    constructor
    · intro hp
      rw [hpe]
      rw [show ((pats.foldl (fun a q => dictInsert a q c) acc, false) : Dict × Bool).1
          = pats.foldl (fun a q => dictInsert a q c) acc from rfl]
      rw [dictLookup_foldl_insert, if_pos hp]
    · intro hp
      rw [hpe]
      rw [show ((pats.foldl (fun a q => dictInsert a q c) acc, false) : Dict × Bool).1
          = pats.foldl (fun a q => dictInsert a q c) acc from rfl]
      rw [dictLookup_foldl_insert, if_neg hp]
  · intro acc copt
    cases copt <;> rfl

/-- C4, witness: the theorem applied to a two-pattern rule folded into an
empty table, looked up at a listed pattern and at an unrelated key. -/
theorem C4_patterns_fanout_witness :
    dictLookup (processEntries [] [.dictWithPatterns ["p1", "p2"] (some "c")]).1 "p1"
      = some "c" ∧
    dictLookup (processEntries [] [.dictWithPatterns ["p1", "p2"] (some "c")]).1 "q"
      = none := by
  constructor
  · exact (C4_patterns_fanout.1 [] ["p1", "p2"] "c" "p1" (by decide)).1 (by decide)
  · rw [(C4_patterns_fanout.1 [] ["p1", "p2"] "c" "q" (by decide)).2 (by decide)]
    rfl

/-- C5: post-processing with an empty replacement mapping returns the
input text unchanged (identity law, the no-op fast path at line 475). -/
theorem C5_empty_mapping_identity (t : String) :
    postprocess_text t [] = .ok t := rfl

/-- C6: literal substitution is whole-word only: `{"foo": "bar"}` turns
`"a foo b"` into `"a bar b"`, and leaves `"afoob"` (no word boundary
around the occurrence) unchanged. -/
theorem C6_whole_word_substitution :
    postprocess_text "a foo b" [("foo", "bar")] = .ok "a bar b" ∧
    postprocess_text "afoob" [("foo", "bar")] = .ok "afoob" := by
  exact ⟨by rfl, by rfl⟩

/-- C7: matching is case-insensitive: `{"Tomcat": "Tomcat-server"}` turns
`"using tomcat now"` into `"using Tomcat-server now"`. -/
theorem C7_case_insensitive_substitution :
    postprocess_text "using tomcat now" [("Tomcat", "Tomcat-server")]
      = .ok "using Tomcat-server now" := by
  rfl

/-- C8: a missing dictionary directory, or a directory with no `.json`
files, yields an empty mapping; no error outcome exists for the loader. -/
theorem C8_missing_dir_empty :
    load_term_replacements none = [] ∧
    load_term_replacements (some []) = [] :=
  ⟨rfl, rfl⟩

/-- C9: a pattern containing none of backspace, the two-character
sequence backslash-`b`, or the metacharacters scanned for at line 484
(whatever other regex metacharacters such as `.` or `|` it contains) is
classified as not regex-bearing, and `postprocess_text` substitutes it as
an escaped literal whole word; in particular `"a.b"` replaces only the
literal text `"a.b"` and never `"axb"`. -/
theorem C9_metachar_free_is_literal :
    (∀ p : String,
        p.toList.contains '\x08' = false →
        containsSeq ['\\', 'b'] p.toList = false →
        (∀ ch ∈ p.toList, ¬ ch ∈ metaChars) →
        has_regex_chars p = false ∧
        ∀ c t : String, applyPattern p c t = reSubEscapedWord p c t) ∧
    postprocess_text "say a.b not axb" [("a.b", "X")] = .ok "say X not axb" := by
  constructor
  · intro p h1 h2 h3
    have hcls : has_regex_chars p = false := by
      unfold has_regex_chars
      rw [h1, h2]
      simp only [Bool.false_or]
      rw [List.any_eq_false]
      intro ch hm
      simpa using h3 ch hm
    refine ⟨hcls, ?_⟩
    intro c t
    unfold applyPattern
    rw [hcls]
    simp
  · rfl

/-- C9, witness: the theorem applied at the pattern `"a.b"`, which
contains a dot and no scanned metacharacter. -/
theorem C9_metachar_free_is_literal_witness :
    has_regex_chars "a.b" = false ∧
    applyPattern "a.b" "X" "a.b axb" = reSubEscapedWord "a.b" "X" "a.b axb" := by
  have h := C9_metachar_free_is_literal.1 "a.b" (by decide) (by decide) (by decide)
  exact ⟨h.1, h.2 "X" "a.b axb"⟩

/-- C10: per-file loading is not atomic.  When a nested rule with a
non-empty `patterns` list but no `correct` key raises a `KeyError`
partway through a file, every entry already folded from that file before
the error remains in the mapping returned by `load_term_replacements`
(the rest of the file is dropped), and the scan continues with the
remaining files. -/
theorem C10_partial_file_not_rolled_back (pre : List SrcFile) (es1 : List RepEntry)
    (pats : List String) (es2 : List RepEntry) (post : List SrcFile)
    (hpats : pats ≠ [])
    (hok : (processEntries (List.foldl fileStep [] pre) es1).2 = false) :
    load_term_replacements (some (pre ++
        SrcFile.parsed (.contexts [some (es1 ++ .dictWithPatterns pats none :: es2)]) :: post))
      = List.foldl fileStep (processEntries (List.foldl fileStep [] pre) es1).1 post := by
  rw [load_some_of_ne_nil _ (by simp)]
  rw [List.foldl_append, List.foldl_cons]
  have hA : fileStep (List.foldl fileStep [] pre)
      (SrcFile.parsed (.contexts [some (es1 ++ .dictWithPatterns pats none :: es2)]))
      = (processEntries (List.foldl fileStep [] pre) es1).1 := by
    rw [show fileStep (List.foldl fileStep [] pre)
          (SrcFile.parsed (.contexts [some (es1 ++ .dictWithPatterns pats none :: es2)]))
        = (processContexts (List.foldl fileStep [] pre)
            [some (es1 ++ .dictWithPatterns pats none :: es2)]).1 from rfl]
    rw [processContexts_single]
    rw [processEntries_append _ _ _ hok]
    rw [processEntries_patterns, if_neg (by simpa [List.isEmpty_iff] using hpats)]
  rw [hA]

/-- C10, witness: the theorem applied to a single file whose context
binds `"w"`, then raises (`patterns` present, `correct` missing), then
would bind `"x"`: only `("w", "c")` survives. -/
theorem C10_partial_file_not_rolled_back_witness :
    load_term_replacements (some [SrcFile.parsed (.contexts [some
        [RepEntry.dictWithWrong "w" (some "c"),
         RepEntry.dictWithPatterns ["p"] none,
         RepEntry.dictWithWrong "x" (some "y")]])])
      = [("w", "c")] := by
  have h := C10_partial_file_not_rolled_back [] [RepEntry.dictWithWrong "w" (some "c")]
      ["p"] [RepEntry.dictWithWrong "x" (some "y")] [] (by decide) (by decide)
  exact h.trans (by decide)

end SpeechRec
